import Mathlib

/-
Verification of the Draken columnar runtime (mabel-dev/draken).

Shallow embedding of the vector kernels, the string-vector builder, the
morsel container, the Draken type-tag enumeration and the Arrow type
mapping, translated from the Cython/C sources:
  - src/draken/vectors/int64_vector.pyx (Int64Vector, StringVector,
    StringVectorBuilder, BoolVector)
  - src/draken/core/buffers.h (DrakenType enum, buffer structs)
  - src/draken/core/var_vector.pyx and the fixed-buffer allocator
    (alloc_fixed_buffer / alloc_var_column: fresh buffers have a NULL
    null bitmap and zeroed offsets)
  - src/draken/morsels/morsel.pyx (Morsel.select, DrakenTypeInt)
  - src/draken/interop/arrow.pyx (arrow_type_to_draken)

Machine integers are modelled as Nat with explicit reduction modulo 2^64
where the C code relies on uint64 overflow.  Bitmaps are modelled exactly
as in the source: a byte buffer (List Nat) addressed by the expressions
`bytes[i >> 3]` and `(byte >> (i & 7)) & 1` (Arrow little-endian layout).
-/

namespace Draken

/-- `(byte >> k) & 1`: extract bit `k` of a byte, as the source writes it. -/
def byteBit (byte k : Nat) : Nat := (byte >>> k) &&& 1

/-- `(bytes[i >> 3] >> (i & 7)) & 1`: bit `i` of a bit-packed buffer.
Out-of-range byte reads return 0 (the model's stand-in for the
uninitialised reads the C code would perform). -/
def getBit (bytes : List Nat) (i : Nat) : Nat :=
  byteBit (bytes.getD (i >>> 3) 0) (i &&& 7)

/-- `bytes[i >> 3] |= (1 << (i & 7))`: set bit `i` of a bit-packed buffer. -/
def setBitTrue (bytes : List Nat) (i : Nat) : List Nat :=
  bytes.set (i >>> 3) ((bytes.getD (i >>> 3) 0) ||| (1 <<< (i &&& 7)))

/-- `bytes[i >> 3] &= ~(1 << (i & 7))` on a uint8: clear bit `i`. -/
def setBitFalse (bytes : List Nat) (i : Nat) : List Nat :=
  bytes.set (i >>> 3) ((bytes.getD (i >>> 3) 0) &&& (255 ^^^ (1 <<< (i &&& 7))))

/-- Write bit `i` of a bit-packed buffer at its untruncated byte index
`i >> 3`. -/
def writeBit (bytes : List Nat) (i : Nat) (b : Bool) : List Nat :=
  if b then setBitTrue bytes i else setBitFalse bytes i

/-- The null-bit write of the `StringVector.take` copy loop.  The source
declares `cdef uint8_t dst_byte_idx, dst_bit_idx` (int64_vector.pyx
line 1037) and assigns `dst_byte_idx = i >> 3`, `dst_bit_idx = i & 7`
(lines 1066-1067), so the byte index is truncated modulo 256 before the
store; the bit index `i & 7` is below 8 and unaffected. -/
def writeBitTrunc (bytes : List Nat) (i : Nat) (b : Bool) : List Nat :=
  if b then
    bytes.set ((i >>> 3) % 256)
      ((bytes.getD ((i >>> 3) % 256) 0) ||| (1 <<< (i &&& 7)))
  else
    bytes.set ((i >>> 3) % 256)
      ((bytes.getD ((i >>> 3) % 256) 0) &&& (255 ^^^ (1 <<< (i &&& 7))))

/-- Null test against an optional Arrow validity bitmap: a row is null
when the bitmap is present and its bit is 0 (`is_null` in the source). -/
def isNullBitmap (bm : Option (List Nat)) (i : Nat) : Bool :=
  match bm with
  | none => false
  | some bytes => getBit bytes i == 0

/-- `NULL_HASH` constant from the source (`0x9e3779b97f4a7c15`). -/
def NULL_HASH : Nat := 0x9e3779b97f4a7c15

/-- One FNV-1a step of `StringVector.hash`: `h ^= b; h *= 0x100000001b3`
on a uint64. -/
def fnvStep (h b : Nat) : Nat := ((h ^^^ b) * 0x100000001b3) % 2 ^ 64

/-- The inner byte loop of `StringVector.hash`: seed `0xcbf29ce484222325`,
then one `fnvStep` per byte. -/
def fnv1a (bytes : List Nat) : Nat := bytes.foldl fnvStep 0xcbf29ce484222325

/-! ## DrakenType

`src/draken/core/buffers.h` declares `DrakenType` as a plain C enum with
no explicit values, so C assigns consecutive codes starting at 0:
DRAKEN_INT8=0, ..., DRAKEN_ARRAY=10.  The Cython declaration
(`buffers.pxd`) additionally lists DRAKEN_NON_NATIVE after DRAKEN_ARRAY;
with C default numbering it would receive code 11. -/

inductive DrakenTypeTag where
  | int8 | int16 | int32 | int64 | float32 | float64
  | date32 | timestamp64 | bool | string | array | nonNative
  deriving DecidableEq, Repr

/-- Numeric code of each tag under the C default enum numbering used by
`buffers.h` (which gives the first eleven members 0..10). -/
def DrakenTypeTag.code : DrakenTypeTag → Nat
  | .int8 => 0
  | .int16 => 1
  | .int32 => 2
  | .int64 => 3
  | .float32 => 4
  | .float64 => 5
  | .date32 => 6
  | .timestamp64 => 7
  | .bool => 8
  | .string => 9
  | .array => 10
  | .nonNative => 11

/-- The debugging name table of `DrakenTypeInt._enum_name` in
`morsel.pyx`, which assumes the codes 1,2,3,4,20,21,30,40,50,60,80,100.
Unlisted codes print as UNKNOWN (the source interpolates the number). -/
def drakenTypeIntEnumName (v : Nat) : String :=
  if v = 1 then "DRAKEN_INT8"
  else if v = 2 then "DRAKEN_INT16"
  else if v = 3 then "DRAKEN_INT32"
  else if v = 4 then "DRAKEN_INT64"
  else if v = 20 then "DRAKEN_FLOAT32"
  else if v = 21 then "DRAKEN_FLOAT64"
  else if v = 30 then "DRAKEN_DATE32"
  else if v = 40 then "DRAKEN_TIMESTAMP64"
  else if v = 50 then "DRAKEN_BOOL"
  else if v = 60 then "DRAKEN_STRING"
  else if v = 80 then "DRAKEN_ARRAY"
  else if v = 100 then "DRAKEN_NON_NATIVE"
  else "UNKNOWN"

/-! ## Arrow type mapping (`arrow_type_to_draken` in interop/arrow.pyx) -/

/-- The Arrow types distinguished by the `pyarrow.types.is_*` chain in
`arrow_type_to_draken`.  `timestamp` carries its unit (the source's
`is_timestamp` accepts any unit); `other` stands for every Arrow type
not matched by any branch. -/
inductive ArrowType where
  | int8 | int16 | int32 | int64 | float32 | float64 | date32
  | timestamp (unit : Nat)
  | boolean | string | largeString | binary | list | largeList | other
  deriving DecidableEq, Repr

/-- Translation of the if/elif chain of `arrow_type_to_draken`.  Note the
chain tests `is_string` and `is_large_string` but never `is_binary`, so a
binary type falls through to the final `DRAKEN_NON_NATIVE` return. -/
def arrow_type_to_draken : ArrowType → DrakenTypeTag
  | .int8 => .int8
  | .int16 => .int16
  | .int32 => .int32
  | .int64 => .int64
  | .float32 => .float32
  | .float64 => .float64
  | .date32 => .date32
  | .timestamp _ => .timestamp64
  | .boolean => .bool
  | .string => .string
  | .largeString => .string
  | .list => .array
  | .largeList => .array
  | .binary => .nonNative
  | .other => .nonNative

/-! ## Error kinds surfaced by the embedded operations -/

inductive DrakenError where
  | indexOutOfRange
  | columnNotFound
  deriving DecidableEq, Repr

deriving instance DecidableEq for Except

/-! ## Int64Vector (int64_vector.pyx lines 19-91)

`Int64Vector.take` allocates a fresh buffer with `alloc_fixed_buffer`
(whose `null_bitmap` is NULL) and copies `src[indices[i]]` without any
bounds check (`boundscheck=False`); an out-of-range index therefore reads
whatever lies in the surrounding process memory.  The ambient memory is
modelled by a function `mem : Int → Int` supplying the junk value an
out-of-range read would return. -/

structure Int64Vector where
  data : List Int
  nullBitmap : Option (List Nat)
  deriving DecidableEq, Repr

def Int64Vector.length (v : Int64Vector) : Nat := v.data.length

/-- The unchecked read `src[idx]` performed by `Int64Vector.take`. -/
def Int64Vector.read (v : Int64Vector) (mem : Int → Int) (idx : Int) : Int :=
  if h : 0 ≤ idx ∧ idx.toNat < v.data.length then v.data.get ⟨idx.toNat, h.2⟩
  else mem idx

/-- `Int64Vector.take`: `dst[i] = src[indices[i]]` for every position,
no bounds check, result owns a fresh buffer whose null bitmap is NULL. -/
def Int64Vector.take (v : Int64Vector) (mem : Int → Int) (indices : List Int) :
    Int64Vector :=
  { data := indices.map (fun idx => v.read mem idx)
    nullBitmap := none }

/-- Null flag of row `i` (bitmap bit is 0, or false when absent). -/
def Int64Vector.isNullAt (v : Int64Vector) (i : Nat) : Bool :=
  isNullBitmap v.nullBitmap i

end Draken

namespace Draken

/-! ## BoolVector (int64_vector.pyx lines 1561-1760)

Values are bit-packed; a fresh vector allocates `(length+7)>>3` data
bytes and has a NULL null bitmap. -/

structure BoolVector where
  length : Nat
  data : List Nat
  nullBitmap : Option (List Nat)
  deriving DecidableEq, Repr

/-- The data-bit read `(src[i >> 3] >> (i & 7)) & 1`. -/
def BoolVector.dataBit (v : BoolVector) (i : Nat) : Nat := getBit v.data i

/-- `BoolVector.take`: zero-initialise `(n+7)>>3` destination bytes, then
for each position set bit `i` of the destination when bit `indices[i]` of
the source is set.  The result's null bitmap is NULL (`alloc_fixed_buffer`). -/
def BoolVector.take (v : BoolVector) (indices : List Nat) : BoolVector :=
  { length := indices.length
    data := (List.range indices.length).foldl
      (fun acc i => if getBit v.data (indices.getD i 0) != 0
                    then setBitTrue acc i else acc)
      (List.replicate ((indices.length + 7) >>> 3) 0)
    nullBitmap := none }

/-- `BoolVector.equals`: one int8 byte per row, 1 when the data bit equals
the target, else 0.  The null bitmap is never consulted. -/
def BoolVector.equals (v : BoolVector) (value : Bool) : List Nat :=
  let target := if value then 1 else 0
  (List.range v.length).map
    (fun i => if getBit v.data i = target then 1 else 0)

/-- Null flag of row `i`. -/
def BoolVector.isNullAt (v : BoolVector) (i : Nat) : Bool :=
  isNullBitmap v.nullBitmap i

end Draken

namespace Draken

/-! ## StringVector (int64_vector.pyx lines 772-1081)

A variable-width byte column: `data` is the concatenated byte buffer,
`offsets` holds `length+1` int32 entries (non-negative for well-formed
vectors, modelled as Nat), `nullBitmap` the optional validity bitmap.
A fresh vector (`alloc_var_buffer`) has zeroed offsets and a NULL null
bitmap. -/

structure StringVector where
  length : Nat
  data : List Nat
  offsets : List Nat
  nullBitmap : Option (List Nat)
  deriving DecidableEq, Repr

/-- The byte range of row `i`: `data[offsets[i] .. offsets[i+1])`. -/
def StringVector.rowBytes (v : StringVector) (i : Nat) : List Nat :=
  let s := v.offsets.getD i 0
  let e := v.offsets.getD (i + 1) 0
  (v.data.drop s).take (e - s)

/-- Null flag of row `i`. -/
def StringVector.isNullAt (v : StringVector) (i : Nat) : Bool :=
  isNullBitmap v.nullBitmap i

/-- `StringVector.equals` (the variant with the null check, lines
911-942): a null row emits 0; otherwise 1 exactly when the row's byte
length equals `value`'s and the bytes compare equal (`memcmp`). -/
def StringVector.equals (v : StringVector) (value : List Nat) : List Nat :=
  (List.range v.length).map fun i =>
    if v.isNullAt i then 0
    else if v.offsets.getD (i + 1) 0 - v.offsets.getD i 0 = value.length
            ∧ v.rowBytes i = value then 1
    else 0

/-- `StringVector.hash` (lines 944-977): a null row hashes to
`NULL_HASH`; otherwise the FNV-1a accumulation over the row's bytes. -/
def StringVector.hash (v : StringVector) : List Nat :=
  (List.range v.length).map fun j =>
    if v.isNullAt j then NULL_HASH
    else fnv1a (v.rowBytes j)

/-- The byte rows selected by the copy loop of `StringVector.take`
(lines 1010-1074): row `i` of the result is the byte range
`data[offsets[indices[i]] .. offsets[indices[i]+1])`. -/
def StringVector.takeRows (v : StringVector) (indices : List Int) :
    List (List Nat) :=
  (indices.map Int.toNat).map (fun k => v.rowBytes k)

/-- The null bitmap built by `StringVector.take`: absent when the source
has none (or no loop iteration runs); otherwise allocated all-valid
(0xFF) and destination bit `i` receives source bit `indices[i]` — but
through the uint8-truncated byte index of `writeBitTrunc`, so for
positions `i ≥ 2048` the bit lands in byte `(i >> 3) mod 256` instead of
byte `i >> 3`. -/
def StringVector.takeBitmap (v : StringVector) (indices : List Int) :
    Option (List Nat) :=
  match v.nullBitmap with
  | none => none
  | some src =>
    if indices.length = 0 then none
    else some ((List.range indices.length).foldl
      (fun acc i => writeBitTrunc acc i
        (getBit src ((indices.map Int.toNat).getD i 0) != 0))
      (List.replicate ((indices.length + 7) >>> 3) 255))

/-- `StringVector.take` (lines 1010-1074).  Pass one bounds-checks every
index (negative or `>= length` raises IndexError) and sums the selected
byte lengths; pass two copies the byte ranges and rebuilds the offsets
as the running byte total, copying the null bits when a source bitmap
exists. -/
def StringVector.take (v : StringVector) (indices : List Int) :
    Except DrakenError StringVector :=
  if indices.any (fun idx => idx < 0 || (v.length : Int) ≤ idx) then
    .error .indexOutOfRange
  else
    .ok { length := indices.length
          data := (v.takeRows indices).flatten
          offsets := List.scanl (fun a r => a + r) 0
            ((v.takeRows indices).map List.length)
          nullBitmap := v.takeBitmap indices }

end Draken

namespace Draken

/-! ## StringVectorBuilder (int64_vector.pyx lines 1154-1359)

The builder owns a partially-filled StringVector.  `vec.data` models the
written prefix of the data buffer (the C buffer is `bytesCap` bytes of
which the first `offset` are initialised); `vec.offsets` is the calloc'd
`length+1` int32 buffer.  Errors are modelled by the distinct raise
sites; a raising operation performs no state mutation (every raise in
the source happens before the first write of the operation). -/

inductive BuilderError where
  | builderClosed
  | indexOutOfBounds
  | outOfOrder
  | capacityExceeded
  | incomplete
  | capacityMismatch
  deriving DecidableEq, Repr

structure SVBuilder where
  vec : StringVector
  length : Nat
  nextIndex : Nat
  bytesCap : Nat
  offset : Nat
  finished : Bool
  resizable : Bool
  strictCapacity : Bool
  maskUserProvided : Bool
  deriving DecidableEq, Repr

/-- `__cinit__`: allocate `StringVector(length, bytes_capacity)` (zeroed
offsets, no null bitmap, no bytes written) and reset the counters;
`offsets[0] = 0` is a no-op on the calloc'd buffer. -/
def SVBuilder.create (length bytesCap : Nat) (resizable strict : Bool) :
    SVBuilder :=
  { vec := { length := length, data := [],
             offsets := List.replicate (length + 1) 0, nullBitmap := none }
    length := length
    nextIndex := 0
    bytesCap := bytesCap
    offset := 0
    finished := false
    resizable := resizable
    strictCapacity := strict
    maskUserProvided := false }

/-- `with_counts(length, total_bytes)`: strict byte budget, not resizable. -/
def SVBuilder.withCounts (length totalBytes : Nat) : SVBuilder :=
  SVBuilder.create length totalBytes false true

/-- `with_estimate(length, est_avg_bytes)`: resizable, non-strict;
initial capacity `length * est`, or `max(length, 64)` when that is 0. -/
def SVBuilder.withEstimate (length est : Nat) : SVBuilder :=
  let initial := if length * est = 0 then max length 64 else length * est
  SVBuilder.create length initial true false

/-- `_require_index`: finished builders, out-of-bounds indices and
out-of-order indices are rejected (in that order); the offsets buffer is
always present in the model so the final NULL check never fires. -/
def SVBuilder.requireIndex (b : SVBuilder) (index : Nat) :
    Option BuilderError :=
  if b.finished then some .builderClosed
  else if index ≥ b.length then some .indexOutOfBounds
  else if index ≠ b.nextIndex then some .outOfOrder
  else none

/-- The capacity-doubling loop of `_ensure_capacity`: grow until
`target` fits, stepping to 64 first and doubling afterwards. -/
def growLoop (cap target : Nat) : Nat :=
  if h : cap < target then growLoop (if cap < 64 then 64 else cap * 2) target
  else cap
termination_by target - cap
decreasing_by
  split <;> omega

/-- `_ensure_capacity(to_add)`: nothing to do when the bytes fit; a
non-resizable builder raises; a resizable one reallocs to the grown
capacity (the data bytes are preserved by realloc). -/
def SVBuilder.ensureCapacity (b : SVBuilder) (toAdd : Nat) :
    Except BuilderError SVBuilder :=
  if toAdd = 0 then .ok b
  else if b.offset + toAdd ≤ b.bytesCap then .ok b
  else if !b.resizable then .error .capacityExceeded
  else
    let start := if b.bytesCap = 0 then toAdd else b.bytesCap
    .ok { b with bytesCap := growLoop start (b.offset + toAdd) }

/-- `_append_with_ptr(index, src, length)`: check the index, ensure
capacity, copy the bytes at the current offset, set the validity bit
when a bitmap exists and was not user-provided, then advance
`offset`/`next_index` and record `offsets[next_index]`. -/
def SVBuilder.appendWithPtr (b : SVBuilder) (index : Nat) (value : List Nat) :
    Except BuilderError SVBuilder :=
  match b.requireIndex index with
  | some e => .error e
  | none =>
    match b.ensureCapacity value.length with
    | .error e => .error e
    | .ok b1 =>
      let newOffset := b1.offset + value.length
      let nb : Option (List Nat) :=
        match b1.vec.nullBitmap with
        | none => none
        | some bm =>
          if b1.maskUserProvided then some bm else some (setBitTrue bm index)
      .ok { b1 with
            vec := { b1.vec with
                     data := b1.vec.data ++ value
                     offsets := b1.vec.offsets.set (b1.nextIndex + 1) newOffset
                     nullBitmap := nb }
            offset := newOffset
            nextIndex := b1.nextIndex + 1 }

/-- `_initialize_null_bitmap`: allocate `max((length+7)//8, 1)` bytes of
all-valid 0xFF when no bitmap exists yet. -/
def SVBuilder.initNullBitmap (b : SVBuilder) : SVBuilder :=
  match b.vec.nullBitmap with
  | some _ => b
  | none =>
    let nbSize := max ((b.length + 7) / 8) 1
    { b with vec := { b.vec with nullBitmap := some (List.replicate nbSize 255) }
             maskUserProvided := false }

/-- `_set_null(index)`: check the index, clear the validity bit, advance
`next_index` without consuming bytes. -/
def SVBuilder.setNullOp (b : SVBuilder) (index : Nat) :
    Except BuilderError SVBuilder :=
  match b.requireIndex index with
  | some e => .error e
  | none =>
    let b1 := b.initNullBitmap
    let nb := (b1.vec.nullBitmap.getD []).set (index >>> 3)
      (((b1.vec.nullBitmap.getD []).getD (index >>> 3) 0) &&&
        (255 ^^^ (1 <<< (index &&& 7))))
    .ok { b1 with
          vec := { b1.vec with
                   offsets := b1.vec.offsets.set (b1.nextIndex + 1) b1.offset
                   nullBitmap := some nb }
          nextIndex := b1.nextIndex + 1 }

/-- `append(value)` appends at the next position. -/
def SVBuilder.append (b : SVBuilder) (value : List Nat) :
    Except BuilderError SVBuilder :=
  b.appendWithPtr b.nextIndex value

/-- `append_null()` writes a null at the next position. -/
def SVBuilder.appendNull (b : SVBuilder) : Except BuilderError SVBuilder :=
  b.setNullOp b.nextIndex

/-- `set(index, value)` (must be the next slot). -/
def SVBuilder.setVal (b : SVBuilder) (index : Nat) (value : List Nat) :
    Except BuilderError SVBuilder :=
  b.appendWithPtr index value

/-- The offsets patch performed inside `finish`: `offsets[length]` is
overwritten with the final byte count when it disagrees. -/
def SVBuilder.patchOffsets (b : SVBuilder) : SVBuilder :=
  { b with vec := { b.vec with
      offsets := if b.vec.offsets.getD b.length 0 ≠ b.offset
                 then b.vec.offsets.set b.length b.offset
                 else b.vec.offsets } }

/-- `finish()`: already-finished builders return the built vector again;
otherwise fewer than `length` written entries raise the incomplete
error, the final offset entry is patched when it disagrees with the byte
count, a strict builder whose bytes differ from the budget raises the
capacity-mismatch error, and on success the builder is marked finished
and hands out its vector. -/
def SVBuilder.finish (b : SVBuilder) :
    Except BuilderError (StringVector × SVBuilder) :=
  if b.finished then .ok (b.vec, b)
  else if b.nextIndex ≠ b.length then .error .incomplete
  else if b.patchOffsets.strictCapacity
          ∧ b.patchOffsets.offset ≠ b.patchOffsets.bytesCap then
    .error .capacityMismatch
  else .ok (b.patchOffsets.vec, { b.patchOffsets with finished := true })

/-- The write operations a builder accepts between creation and finish. -/
inductive BuildOp where
  | appendVal (value : List Nat)
  | appendNull
  | setVal (index : Nat) (value : List Nat)
  | setNullAt (index : Nat)
  deriving DecidableEq, Repr

def SVBuilder.applyOp (b : SVBuilder) : BuildOp → Except BuilderError SVBuilder
  | .appendVal value => b.append value
  | .appendNull => b.appendNull
  | .setVal index value => b.setVal index value
  | .setNullAt index => b.setNullOp index

/-- Run a sequence of write operations, stopping at the first error. -/
def SVBuilder.runOps (b : SVBuilder) : List BuildOp → Except BuilderError SVBuilder
  | [] => .ok b
  | op :: ops =>
    match b.applyOp op with
    | .error e => .error e
    | .ok b1 => b1.runOps ops

/-- Bytes consumed by one write operation. -/
def BuildOp.bytes : BuildOp → Nat
  | .appendVal value => value.length
  | .appendNull => 0
  | .setVal _ value => value.length
  | .setNullAt _ => 0

/-- Total bytes consumed by a write history. -/
def opsBytes (ops : List BuildOp) : Nat := (ops.map BuildOp.bytes).sum

/-- State of a strict, non-resizable builder (as produced by
`with_counts`) that has processed `written` entries totalling `total`
bytes and has not finished. -/
def BuildingInv (n B written total : Nat) (b : SVBuilder) : Prop :=
  b.length = n ∧ b.bytesCap = B ∧ b.strictCapacity = true ∧
  b.resizable = false ∧ b.finished = false ∧ b.nextIndex = written ∧
  b.offset = total ∧ b.vec.length = n

end Draken

namespace Draken

/-! ## Morsel (morsel.pyx)

The morsel is polymorphic in the column (vector) type: `select` never
inspects a vector, it only moves the handles around, and the
polymorphic model makes that manifest.  Column names are the
NUL-terminated C strings of the source, modelled as byte lists compared
with `strcmp` (byte equality for NUL-free names). -/

structure Morsel (α : Type) where
  columns : List α
  columnNames : List (List Nat)
  columnTypes : List Nat
  numRows : Nat
  deriving DecidableEq, Repr

/-- The inner lookup loop of `Morsel.select`: scan the column names in
order and return the index of the first `strcmp` match, or none. -/
def firstMatch (names : List (List Nat)) (c : List Nat) : Option Nat :=
  match names with
  | [] => none
  | nm :: rest => if nm = c then some 0 else (firstMatch rest c).map (· + 1)

/-- Resolve every requested column name to its first matching index; a
name with no match raises KeyError (ColumnNotFound). -/
def resolveNames (names : List (List Nat)) :
    List (List Nat) → Except DrakenError (List Nat)
  | [] => .ok []
  | c :: rest =>
    match firstMatch names c with
    | none => .error .columnNotFound
    | some i =>
      match resolveNames names rest with
      | .error e => .error e
      | .ok is => .ok (i :: is)

/-- `Morsel.select(columns)`: resolve every requested name to the first
matching column index, then build a new morsel that shares the selected
vector handles, names and type codes, in request order, with the row
count of the source. -/
def Morsel.select [Inhabited α] (m : Morsel α) (cols : List (List Nat)) :
    Except DrakenError (Morsel α) :=
  match resolveNames m.columnNames cols with
  | .error e => .error e
  | .ok idxs =>
    .ok { columns := idxs.map (fun i => m.columns.getD i default)
          columnNames := idxs.map (fun i => m.columnNames.getD i [])
          columnTypes := idxs.map (fun i => m.columnTypes.getD i 0)
          numRows := m.numRows }

end Draken

namespace Draken

/-! ## Well-formedness of the buffer shapes (spec section 3 invariants)

The C kernels rely on these shape invariants; inputs violating them make
the C code read or write out of bounds, so theorems about kernels on
arbitrary vectors are stated under them. -/

/-- A BoolVector's bit-packed data buffer holds `(length+7)>>3` bytes. -/
def BoolVector.WF (v : BoolVector) : Prop :=
  v.data.length = (v.length + 7) >>> 3

/-- A StringVector has `length+1` offset entries, starting at 0,
non-decreasing, and bounded by the data size. -/
def StringVector.WF (v : StringVector) : Prop :=
  v.offsets.length = v.length + 1 ∧
  v.offsets.getD 0 0 = 0 ∧
  (∀ i, i < v.length → v.offsets.getD i 0 ≤ v.offsets.getD (i + 1) 0) ∧
  v.offsets.getD v.length 0 ≤ v.data.length

instance (v : BoolVector) : Decidable v.WF := by
  unfold BoolVector.WF; infer_instance

instance (v : StringVector) : Decidable v.WF := by
  unfold StringVector.WF; infer_instance

end Draken

namespace Draken

/-! ## Bit-level lemmas about the packed-bitmap helpers -/

theorem byteBit_eq_testBit (x k : Nat) : byteBit x k = (x.testBit k).toNat := by
  rw [byteBit, Nat.and_one_is_mod, Nat.testBit_to_div_mod, Nat.shiftRight_eq_div_pow]
  rcases Nat.mod_two_eq_zero_or_one (x / 2 ^ k) with h | h <;> simp [h]

theorem byteBit_lor_self (x k : Nat) : byteBit (x ||| (1 <<< k)) k = 1 := by
  rw [byteBit_eq_testBit, Nat.shiftLeft_eq, one_mul, Nat.testBit_lor,
    Nat.testBit_two_pow_self]
  simp

theorem byteBit_lor_ne (x k j : Nat) (h : k ≠ j) :
    byteBit (x ||| (1 <<< k)) j = byteBit x j := by
  rw [byteBit_eq_testBit, byteBit_eq_testBit, Nat.shiftLeft_eq, one_mul,
    Nat.testBit_lor, Nat.testBit_two_pow_of_ne h]
  simp

theorem byteBit_mask_self (x k : Nat) (hk : k < 8) :
    byteBit (x &&& (255 ^^^ (1 <<< k))) k = 0 := by
  rw [byteBit_eq_testBit, Nat.shiftLeft_eq, one_mul, Nat.testBit_land,
    Nat.testBit_xor]
  have h255 : (255 : Nat) = 2 ^ 8 - 1 := by norm_num
  rw [h255, Nat.testBit_two_pow_sub_one, Nat.testBit_two_pow_self]
  simp [hk]

theorem byteBit_mask_ne (x k j : Nat) (h : k ≠ j) (hj : j < 8) :
    byteBit (x &&& (255 ^^^ (1 <<< k))) j = byteBit x j := by
  rw [byteBit_eq_testBit, byteBit_eq_testBit, Nat.shiftLeft_eq, one_mul,
    Nat.testBit_land, Nat.testBit_xor]
  have h255 : (255 : Nat) = 2 ^ 8 - 1 := by norm_num
  rw [h255, Nat.testBit_two_pow_sub_one, Nat.testBit_two_pow_of_ne h]
  simp [hj]

/-- `i = 8 * (i >> 3) + (i & 7)`: byte index and bit index decompose `i`. -/
theorem bitIndex_decomp (i : Nat) : 8 * (i >>> 3) + (i &&& 7) = i := by
  rw [Nat.shiftRight_eq_div_pow, Nat.and_pow_two_sub_one_eq_mod i 3]
  norm_num
  omega

theorem and7_lt_8 (i : Nat) : i &&& 7 < 8 := by
  rw [Nat.and_pow_two_sub_one_eq_mod i 3]
  norm_num
  omega

theorem length_setBitTrue (bs : List Nat) (i : Nat) :
    (setBitTrue bs i).length = bs.length := by
  simp [setBitTrue]

theorem length_setBitFalse (bs : List Nat) (i : Nat) :
    (setBitFalse bs i).length = bs.length := by
  simp [setBitFalse]

theorem length_writeBit (bs : List Nat) (i : Nat) (b : Bool) :
    (writeBit bs i b).length = bs.length := by
  unfold writeBit
  split <;> simp [length_setBitTrue, length_setBitFalse]

theorem getD_set_self (l : List Nat) (i a : Nat) (h : i < l.length) :
    (l.set i a).getD i 0 = a := by
  simp [List.getD_eq_getElem?_getD, List.getElem?_set_eq_of_lt a h]

theorem getD_set_ne (l : List Nat) (i j a : Nat) (h : i ≠ j) :
    (l.set i a).getD j 0 = l.getD j 0 := by
  simp [List.getD_eq_getElem?_getD, List.getElem?_set_ne h]

theorem getBit_writeBit_self (bs : List Nat) (i : Nat) (b : Bool)
    (h : i >>> 3 < bs.length) :
    getBit (writeBit bs i b) i = if b then 1 else 0 := by
  unfold writeBit getBit setBitTrue setBitFalse
  split
  · rw [getD_set_self _ _ _ h, byteBit_lor_self]
  · rw [getD_set_self _ _ _ h, byteBit_mask_self _ _ (and7_lt_8 i)]

theorem getBit_writeBit_ne (bs : List Nat) (i j : Nat) (b : Bool)
    (h : i ≠ j) : getBit (writeBit bs i b) j = getBit bs j := by
  rcases eq_or_ne (i >>> 3) (j >>> 3) with hb | hb
  · have hbit : i &&& 7 ≠ j &&& 7 := by
      intro habs
      exact h (by
        have hi := bitIndex_decomp i
        have hj := bitIndex_decomp j
        omega)
    rcases Nat.lt_or_ge (i >>> 3) bs.length with hlt | hge
    · unfold writeBit getBit setBitTrue setBitFalse
      split
      · rw [hb, getD_set_self _ _ _ (hb ▸ hlt), byteBit_lor_ne _ _ _ hbit]
      · rw [hb, getD_set_self _ _ _ (hb ▸ hlt),
          byteBit_mask_ne _ _ _ hbit (and7_lt_8 j)]
    · unfold writeBit getBit setBitTrue setBitFalse
      split <;> rw [List.set_eq_of_length_le hge]
  · unfold writeBit getBit setBitTrue setBitFalse
    split <;> rw [getD_set_ne _ _ _ _ hb]

end Draken

namespace Draken

/-! ## Folded bit writes (loop bodies of the two take kernels) -/

theorem length_foldl_writeBit (g : Nat → Bool) (n : Nat) (init : List Nat) :
    ((List.range n).foldl (fun acc i => writeBit acc i (g i)) init).length
      = init.length := by
  induction n with
  | zero => simp
  | succ m ih =>
    rw [List.range_succ, List.foldl_append]
    simp only [List.foldl_cons, List.foldl_nil]
    rw [length_writeBit, ih]

theorem shiftRight3_mono {a b : Nat} (h : a ≤ b) : a >>> 3 ≤ b >>> 3 := by
  simp only [Nat.shiftRight_eq_div_pow]
  exact Nat.div_le_div_right h

theorem shiftRight3_succ (m : Nat) : (m + 8) >>> 3 = m >>> 3 + 1 := by
  simp only [Nat.shiftRight_eq_div_pow]
  norm_num

/-- Bit `k` of the bitmap-copy loop of `StringVector.take`: positions
inside the loop range hold the written bit, the rest keep the initial
(all-valid) contents. -/
theorem getBit_foldl_writeBit (g : Nat → Bool) (n : Nat) (init : List Nat)
    (hlen : (n + 7) >>> 3 ≤ init.length) (k : Nat) :
    getBit ((List.range n).foldl (fun acc i => writeBit acc i (g i)) init) k
      = if k < n then (if g k then 1 else 0) else getBit init k := by
  induction n with
  | zero => simp
  | succ m ih =>
    have hmono : (m + 7) >>> 3 ≤ init.length :=
      le_trans (shiftRight3_mono (by omega)) hlen
    have hmlt : m >>> 3 < init.length := by
      have h8 : (m + 8) >>> 3 = m >>> 3 + 1 := shiftRight3_succ m
      have : m + 1 + 7 = m + 8 := by omega
      rw [this, h8] at hlen
      omega
    rw [List.range_succ, List.foldl_append]
    simp only [List.foldl_cons, List.foldl_nil]
    rcases eq_or_ne m k with hmk | hmk
    · subst hmk
      rw [getBit_writeBit_self _ _ _ (by rw [length_foldl_writeBit]; exact hmlt)]
      simp
    · rw [getBit_writeBit_ne _ _ _ _ hmk, ih hmono]
      rcases Nat.lt_or_ge k m with hk | hk
      · simp [hk, Nat.lt_succ_of_lt hk]
      · have h1 : ¬ (k < m) := by omega
        have h2 : ¬ (k < m + 1) := by omega
        simp [h1, h2]

/-- Below position 2048 the byte index `i >> 3` fits a uint8, so the
truncated write coincides with the untruncated one. -/
theorem writeBitTrunc_eq_writeBit (bytes : List Nat) (i : Nat) (b : Bool)
    (h : i >>> 3 < 256) : writeBitTrunc bytes i b = writeBit bytes i b := by
  unfold writeBitTrunc writeBit setBitTrue setBitFalse
  rw [Nat.mod_eq_of_lt h]

/-- For at most 2048 loop iterations every byte index fits a uint8 and
the truncated-write fold agrees with the untruncated one. -/
theorem foldl_writeBitTrunc_eq (g : Nat → Bool) (n : Nat)
    (init : List Nat) (hn : n ≤ 2048) :
    (List.range n).foldl (fun acc i => writeBitTrunc acc i (g i)) init
      = (List.range n).foldl (fun acc i => writeBit acc i (g i)) init := by
  refine List.foldl_ext _ _ init ?_
  intro acc i hi
  have hilt : i < n := List.mem_range.mp hi
  refine writeBitTrunc_eq_writeBit acc i (g i) ?_
  have hd := Nat.shiftRight_eq_div_pow i 3
  norm_num at hd
  omega

theorem getBit_setBitTrue_self (bs : List Nat) (i : Nat)
    (h : i >>> 3 < bs.length) : getBit (setBitTrue bs i) i = 1 := by
  unfold getBit setBitTrue
  rw [getD_set_self _ _ _ h, byteBit_lor_self]

theorem getBit_setBitTrue_ne (bs : List Nat) (i j : Nat) (h : i ≠ j) :
    getBit (setBitTrue bs i) j = getBit bs j := by
  have hw := getBit_writeBit_ne bs i j true h
  simpa [writeBit] using hw

theorem length_foldl_condSet (g : Nat → Bool) (n : Nat) (init : List Nat) :
    ((List.range n).foldl
        (fun acc i => if g i then setBitTrue acc i else acc) init).length
      = init.length := by
  induction n with
  | zero => simp
  | succ m ih =>
    rw [List.range_succ, List.foldl_append]
    simp only [List.foldl_cons, List.foldl_nil]
    split
    · rw [length_setBitTrue, ih]
    · exact ih

/-- Bit `k` of the bit-gather loop of `BoolVector.take`: a position is 1
exactly when its loop iteration set it; untouched positions keep the
initial contents. -/
theorem getBit_foldl_condSet (g : Nat → Bool) (n : Nat) (init : List Nat)
    (hlen : (n + 7) >>> 3 ≤ init.length) (k : Nat) :
    getBit ((List.range n).foldl
        (fun acc i => if g i then setBitTrue acc i else acc) init) k
      = if k < n ∧ g k then 1 else getBit init k := by
  induction n with
  | zero => simp
  | succ m ih =>
    have hmono : (m + 7) >>> 3 ≤ init.length :=
      le_trans (shiftRight3_mono (by omega)) hlen
    have hmlt : m >>> 3 < init.length := by
      have h8 : (m + 8) >>> 3 = m >>> 3 + 1 := shiftRight3_succ m
      have : m + 1 + 7 = m + 8 := by omega
      rw [this, h8] at hlen
      omega
    rw [List.range_succ, List.foldl_append]
    simp only [List.foldl_cons, List.foldl_nil]
    rcases eq_or_ne m k with hmk | hmk
    · subst hmk
      cases hg : g m with
      | false =>
        rw [if_neg (show ¬ (false = true) by simp), ih hmono]
        simp [hg]
      | true =>
        rw [if_pos rfl,
          getBit_setBitTrue_self _ _ (by rw [length_foldl_condSet]; exact hmlt)]
        simp
    · have hpres : ∀ acc : List Nat,
          getBit (if g m then setBitTrue acc m else acc) k = getBit acc k := by
        intro acc
        split
        · exact getBit_setBitTrue_ne acc m k hmk
        · rfl
      rw [hpres, ih hmono]
      rcases Nat.lt_or_ge k m with hk | hk
      · simp [hk, Nat.lt_succ_of_lt hk]
      · have h1 : ¬ (k < m) := by omega
        have h2 : ¬ (k < m + 1) := by omega
        simp [h1, h2]

end Draken

namespace Draken

/-! ## Concatenated rows and running-total offsets (pass two of
`StringVector.take`) -/

theorem getD_map_range {α : Type} (f : Nat → α) (n k : Nat) (d : α)
    (hk : k < n) : ((List.range n).map f).getD k d = f k := by
  rw [List.getD_eq_getElem?_getD, List.getElem?_map, List.getElem?_range hk]
  rfl

theorem scanl_getD_zero (f : Nat → Nat → Nat) (b : Nat) (l : List Nat) :
    (List.scanl f b l).getD 0 0 = b := by
  cases l <;> simp [List.scanl_cons, List.scanl_nil]

/-- Reading back row `k` of a buffer built by concatenating `rows` after
a prefix, with offsets the running byte totals, returns exactly that row. -/
theorem extract_flatten (rows : List (List Nat)) (pre : List Nat) (k : Nat)
    (hk : k < rows.length) :
    (((pre ++ rows.flatten).drop
        ((List.scanl (fun a r => a + r) pre.length (rows.map List.length)).getD k 0)).take
      (((List.scanl (fun a r => a + r) pre.length (rows.map List.length)).getD (k + 1) 0)
        - ((List.scanl (fun a r => a + r) pre.length (rows.map List.length)).getD k 0)))
      = rows.getD k [] := by
  induction rows generalizing pre k with
  | nil => simp at hk
  | cons r rest ih =>
    rw [List.map_cons, List.scanl_cons, List.singleton_append]
    cases k with
    | zero =>
      rw [List.getD_cons_zero, List.getD_cons_succ, scanl_getD_zero]
      have hsub : pre.length + r.length - pre.length = r.length := by omega
      rw [List.flatten_cons, hsub, List.drop_left, List.take_left]
      simp
    | succ k' =>
      rw [List.getD_cons_succ, List.getD_cons_succ, List.getD_cons_succ]
      have hpre : (pre ++ r).length = pre.length + r.length := by simp
      have hik := ih (pre ++ r) k' (by simpa using hk)
      rw [hpre] at hik
      rw [List.flatten_cons, ← List.append_assoc]
      exact hik

end Draken

namespace Draken

/-! ## Builder state facts (with_counts / finish, claims about the
StringVectorBuilder) -/

theorem buildingInv_withCounts (n B : Nat) :
    BuildingInv n B 0 0 (SVBuilder.withCounts n B) :=
  ⟨rfl, rfl, rfl, rfl, rfl, rfl, rfl, rfl⟩

theorem ensureCapacity_ok_eq {b b2 : SVBuilder} {toAdd : Nat}
    (hres : b.resizable = false) (h : b.ensureCapacity toAdd = .ok b2) :
    b2 = b := by
  unfold SVBuilder.ensureCapacity at h
  split at h
  · exact (Except.ok.inj h).symm
  · split at h
    · exact (Except.ok.inj h).symm
    · split at h
      · simp at h
      · rename_i hc
        rw [hres] at hc
        simp at hc

theorem appendWithPtr_ok {n B w t : Nat} {b b1 : SVBuilder} {index : Nat}
    {value : List Nat} (hinv : BuildingInv n B w t b)
    (h : b.appendWithPtr index value = .ok b1) :
    BuildingInv n B (w + 1) (t + value.length) b1 := by
  obtain ⟨hlen, hcap, hstrict, hres, hfin, hnext, hoff, hveclen⟩ := hinv
  unfold SVBuilder.appendWithPtr at h
  split at h
  · simp at h
  · split at h
    · simp at h
    · rename_i b2 hens
      have hb2 : b2 = b := ensureCapacity_ok_eq hres hens
      subst hb2
      have hb1 := Except.ok.inj h
      subst hb1
      exact ⟨hlen, hcap, hstrict, hres, hfin, by simp [hnext], by simp [hoff],
        hveclen⟩

theorem setNullOp_ok {n B w t : Nat} {b b1 : SVBuilder} {index : Nat}
    (hinv : BuildingInv n B w t b) (h : b.setNullOp index = .ok b1) :
    BuildingInv n B (w + 1) t b1 := by
  obtain ⟨hlen, hcap, hstrict, hres, hfin, hnext, hoff, hveclen⟩ := hinv
  unfold SVBuilder.setNullOp at h
  split at h
  · simp at h
  · have hb1 := Except.ok.inj h
    subst hb1
    unfold SVBuilder.initNullBitmap
    split <;>
      exact ⟨hlen, hcap, hstrict, hres, hfin, by simp [hnext], by simp [hoff],
        hveclen⟩

theorem applyOp_ok {n B w t : Nat} {b b1 : SVBuilder} {op : BuildOp}
    (hinv : BuildingInv n B w t b) (h : b.applyOp op = .ok b1) :
    BuildingInv n B (w + 1) (t + op.bytes) b1 := by
  cases op with
  | appendVal value => exact appendWithPtr_ok hinv h
  | appendNull =>
    have := setNullOp_ok hinv h
    simpa [BuildOp.bytes] using this
  | setVal index value => exact appendWithPtr_ok hinv h
  | setNullAt index =>
    have := setNullOp_ok hinv h
    simpa [BuildOp.bytes] using this

theorem runOps_inv {n B : Nat} (ops : List BuildOp) {w t : Nat}
    {b b1 : SVBuilder} (hinv : BuildingInv n B w t b)
    (h : b.runOps ops = .ok b1) :
    BuildingInv n B (w + ops.length) (t + opsBytes ops) b1 := by
  induction ops generalizing b w t with
  | nil =>
    unfold SVBuilder.runOps at h
    have hb1 := Except.ok.inj h
    subst hb1
    simpa [opsBytes] using hinv
  | cons op rest ih =>
    unfold SVBuilder.runOps at h
    split at h
    · simp at h
    · rename_i b2 hop
      have h2 := applyOp_ok hinv hop
      have h3 := ih h2 h
      have harith1 : w + (op :: rest).length = (w + 1) + rest.length := by
        simp
        omega
      have harith2 : t + opsBytes (op :: rest) = (t + op.bytes) + opsBytes rest := by
        simp [opsBytes]
        omega
      rw [harith1, harith2]
      exact h3

end Draken

namespace Draken

/-! ## First-match column lookup facts (Morsel.select) -/

theorem firstMatch_none_iff (names : List (List Nat)) (c : List Nat) :
    firstMatch names c = none ↔ c ∉ names := by
  induction names with
  | nil => simp [firstMatch]
  | cons nm rest ih =>
    simp only [firstMatch]
    split
    · rename_i heq
      subst heq
      simp
    · rename_i hne
      constructor
      · intro h0
        have hrm : firstMatch rest c = none := by
          cases hfm : firstMatch rest c with
          | none => rfl
          | some i' =>
            rw [hfm] at h0
            simp at h0
        simp only [List.mem_cons, not_or]
        exact ⟨fun habs => hne habs.symm, ih.mp hrm⟩
      · intro h0
        have hcr : c ∉ rest := fun hr => h0 (List.mem_cons_of_mem _ hr)
        rw [ih.mpr hcr]
        rfl

theorem firstMatch_spec (names : List (List Nat)) (c : List Nat) (i : Nat)
    (h : firstMatch names c = some i) :
    i < names.length ∧ names.getD i [] = c ∧
      ∀ j, j < i → names.getD j [] ≠ c := by
  induction names generalizing i with
  | nil => simp [firstMatch] at h
  | cons nm rest ih =>
    simp only [firstMatch] at h
    split at h
    · rename_i heq
      have hi : i = 0 := (Option.some.inj h).symm
      subst hi
      exact ⟨by simp, by simpa using heq, fun j hj => absurd hj (by omega)⟩
    · rename_i hne
      cases hrm : firstMatch rest c with
      | none =>
        rw [hrm] at h
        simp at h
      | some i' =>
        rw [hrm] at h
        simp at h
        subst h
        obtain ⟨h1, h2, h3⟩ := ih i' hrm
        refine ⟨by simp; omega, by simpa using h2, ?_⟩
        intro j hj
        cases j with
        | zero => simpa using hne
        | succ j' => simpa using h3 j' (by omega)

theorem resolveNames_ok (names : List (List Nat)) (cols : List (List Nat))
    (h : ∀ c ∈ cols, c ∈ names) :
    ∃ idxs, resolveNames names cols = .ok idxs ∧
      idxs.length = cols.length ∧
      ∀ k, k < cols.length →
        firstMatch names (cols.getD k []) = some (idxs.getD k 0) := by
  induction cols with
  | nil => exact ⟨[], rfl, rfl, fun k hk => absurd hk (by simp)⟩
  | cons c rest ih =>
    have hc : c ∈ names := h c (List.mem_cons_self c rest)
    cases hfm : firstMatch names c with
    | none => exact absurd hc ((firstMatch_none_iff names c).mp hfm)
    | some i =>
      obtain ⟨idxs, hres, hlen, hspec⟩ :=
        ih (fun x hx => h x (List.mem_cons_of_mem _ hx))
      refine ⟨i :: idxs, ?_, by simp [hlen], ?_⟩
      · unfold resolveNames
        rw [hfm, hres]
      · intro k hk
        cases k with
        | zero => simpa using hfm
        | succ k' =>
          simp only [List.getD_cons_succ]
          exact hspec k' (by simpa using hk)

theorem resolveNames_err (names : List (List Nat)) (cols : List (List Nat))
    (h : ¬ ∀ c ∈ cols, c ∈ names) :
    resolveNames names cols = .error .columnNotFound := by
  induction cols with
  | nil => exact absurd (by simp) h
  | cons c rest ih =>
    by_cases hc : c ∈ names
    · have hrest : ¬ ∀ x ∈ rest, x ∈ names := by
        intro hall
        exact h (by
          intro x hx
          rcases List.mem_cons.mp hx with hx0 | hx1
          · exact hx0 ▸ hc
          · exact hall x hx1)
      cases hfm : firstMatch names c with
      | none => exact absurd hc ((firstMatch_none_iff names c).mp hfm)
      | some i =>
        unfold resolveNames
        rw [hfm, ih hrest]
    · have hfm : firstMatch names c = none := (firstMatch_none_iff names c).mpr hc
      unfold resolveNames
      rw [hfm]

end Draken

namespace Draken

/-! ## Claim theorems -/

/-- C3: the spec says every vector type's `take` fails with
`IndexOutOfRange` for an out-of-range index.  `Int64Vector.take`
(int64_vector.pyx lines 59-66) performs no bounds check at all: on the
length-1 vector `[7]`, `take([5])` returns a 1-row vector holding
whatever 8 bytes lie at `src + 5*8` in process memory (modelled by
`mem 5`), instead of raising. -/
theorem c3_int64_take_unchecked :
    ∀ mem : Int → Int,
      Int64Vector.take ⟨[7], none⟩ mem [5] = ⟨[mem 5], none⟩ := by
  intro mem
  unfold Int64Vector.take Int64Vector.read
  norm_num

/-- C5: the claim says the numeric type codes are Int8=1, ..., Int64=4,
Bool=50, String=60.  The C enum in buffers.h carries no explicit values,
so C numbers its members 0..10: `DRAKEN_INT64` is 3, not 4, and the
debug name table in morsel.pyx (which assumes the documented codes)
renders an Int64 column's tag as DRAKEN_INT32. -/
theorem c5_type_codes_mismatch :
    DrakenTypeTag.code .int64 = 3 ∧
    drakenTypeIntEnumName (DrakenTypeTag.code .int64) = "DRAKEN_INT32" ∧
    DrakenTypeTag.code .int64 ≠ 4 ∧
    DrakenTypeTag.code .bool = 8 ∧ DrakenTypeTag.code .bool ≠ 50 ∧
    DrakenTypeTag.code .string = 9 ∧ DrakenTypeTag.code .string ≠ 60 := by
  refine ⟨rfl, by decide, by decide, rfl, by decide, rfl, by decide⟩

/-- C6 counterexample: the claim says `arrow_type_to_draken` maps an
Arrow binary type to `DRAKEN_STRING`; the if/elif chain never tests
`is_binary`, so binary falls through to `DRAKEN_NON_NATIVE`. -/
theorem c6_binary_counterexample :
    arrow_type_to_draken .binary ≠ DrakenTypeTag.string := by decide

/-- C6 (amended): `arrow_type_to_draken` maps int8/16/32/64 to
Int8..Int64, float32/64 to Float32/64, date32 to Date32, timestamps of
any unit to Timestamp64, bool to Bool, string and large_string to
String, list and large_list to Array, and everything else — including
binary — to NonNative. -/
theorem c6_arrow_mapping_amended :
    arrow_type_to_draken .int8 = .int8 ∧
    arrow_type_to_draken .int16 = .int16 ∧
    arrow_type_to_draken .int32 = .int32 ∧
    arrow_type_to_draken .int64 = .int64 ∧
    arrow_type_to_draken .float32 = .float32 ∧
    arrow_type_to_draken .float64 = .float64 ∧
    arrow_type_to_draken .date32 = .date32 ∧
    (∀ u : Nat, arrow_type_to_draken (.timestamp u) = .timestamp64) ∧
    arrow_type_to_draken .boolean = .bool ∧
    arrow_type_to_draken .string = .string ∧
    arrow_type_to_draken .largeString = .string ∧
    arrow_type_to_draken .list = .array ∧
    arrow_type_to_draken .largeList = .array ∧
    arrow_type_to_draken .binary = .nonNative ∧
    arrow_type_to_draken .other = .nonNative :=
  ⟨rfl, rfl, rfl, rfl, rfl, rfl, rfl, fun _ => rfl, rfl, rfl, rfl, rfl, rfl,
    rfl, rfl⟩

/-- C10: a second `finish` on a successfully finished builder raises no
error and returns the same vector and state as the first. -/
theorem c10_finish_idempotent (b : SVBuilder) (v : StringVector)
    (b1 : SVBuilder) (h : b.finish = .ok (v, b1)) :
    b1.finish = .ok (v, b1) := by
  unfold SVBuilder.finish at h ⊢
  split at h
  · rename_i hfin
    obtain ⟨hv, hb⟩ := Prod.mk.inj (Except.ok.inj h)
    subst hv
    rw [← hb, if_pos hfin]
  · split at h
    · simp at h
    · split at h
      · simp at h
      · obtain ⟨hv, hb⟩ := Prod.mk.inj (Except.ok.inj h)
        subst hv
        rw [← hb, if_pos rfl]

/-- C10 witness: a zero-row strict builder finishes at once, and
re-finishing reproduces the identical result. -/
theorem c10_finish_idempotent_witness :
    SVBuilder.finish ⟨⟨0, [], [0], none⟩, 0, 0, 0, 0, true, false, true, false⟩
      = .ok (⟨0, [], [0], none⟩,
             ⟨⟨0, [], [0], none⟩, 0, 0, 0, 0, true, false, true, false⟩) := by
  have h : (SVBuilder.withCounts 0 0).finish
      = .ok (⟨0, [], [0], none⟩,
             ⟨⟨0, [], [0], none⟩, 0, 0, 0, 0, true, false, true, false⟩) := by
    decide
  exact c10_finish_idempotent _ _ _ h

/-- C8 counterexample: the claim says a failed operation invalidates the
builder so every subsequent operation fails with BuilderClosed.  After
`set(1, "a")` fails on a fresh 2-row builder (out-of-order index), the
state is unchanged and `append("a")` succeeds. -/
theorem c8_invalidate_counterexample :
    (SVBuilder.withCounts 2 2).setVal 1 [97] = .error .outOfOrder ∧
    ((SVBuilder.withCounts 2 2).append [97]).isOk = true ∧
    (SVBuilder.withCounts 2 2).append [97] ≠ .error .builderClosed := by
  refine ⟨by decide, by decide, by decide⟩

/-- C8 (amended): a failing operation raises before any state mutation,
so it does not invalidate the builder; the closed-builder error arises
exactly from finishing: after a successful `finish`, every indexed
write operation on the finished builder fails with BuilderClosed. -/
theorem c8_builder_closed_after_finish (b : SVBuilder) (v : StringVector)
    (b1 : SVBuilder) (h : b.finish = .ok (v, b1)) :
    ∀ op : BuildOp, b1.applyOp op = .error .builderClosed := by
  have hfin : b1.finished = true := by
    unfold SVBuilder.finish at h
    split at h
    · rename_i hf
      obtain ⟨_, hb⟩ := Prod.mk.inj (Except.ok.inj h)
      rw [← hb]
      exact hf
    · split at h
      · simp at h
      · split at h
        · simp at h
        · obtain ⟨_, hb⟩ := Prod.mk.inj (Except.ok.inj h)
          rw [← hb]
  intro op
  cases op <;>
    simp [SVBuilder.applyOp, SVBuilder.append, SVBuilder.appendNull,
      SVBuilder.setVal, SVBuilder.appendWithPtr, SVBuilder.setNullOp,
      SVBuilder.requireIndex, hfin]

/-- C8 witness: finishing the empty strict builder closes it; an append
afterwards fails with BuilderClosed. -/
theorem c8_builder_closed_witness :
    SVBuilder.applyOp
        ⟨⟨0, [], [0], none⟩, 0, 0, 0, 0, true, false, true, false⟩
        (.appendVal [97])
      = .error .builderClosed := by
  have h : (SVBuilder.withCounts 0 0).finish
      = .ok (⟨0, [], [0], none⟩,
             ⟨⟨0, [], [0], none⟩, 0, 0, 0, 0, true, false, true, false⟩) := by
    decide
  exact c8_builder_closed_after_finish _ _ _ h (.appendVal [97])

/-- C2 counterexample: the claim says `BoolVector.equals(true)` emits 0
where the row is null.  On a one-row vector whose single row is null but
whose data bit is 1, `equals(true)` emits 1. -/
theorem c2_equals_null_counterexample :
    BoolVector.isNullAt ⟨1, [1], some [0]⟩ 0 = true ∧
    (BoolVector.equals ⟨1, [1], some [0]⟩ true).getD 0 0 ≠ 0 := by
  refine ⟨by decide, by decide⟩

/-- C2 (amended): `StringVector.equals` writes a 0 byte at every null
position regardless of the stored bytes, but `BoolVector.equals` never
consults the null bitmap: its output is determined by the data bits
alone (two vectors differing only in their bitmap produce identical
masks). -/
theorem c2_equals_null_semantics :
    (∀ (v : StringVector) (value : List Nat) (i : Nat), i < v.length →
        v.isNullAt i = true → (v.equals value).getD i 0 = 0) ∧
    (∀ (len : Nat) (data : List Nat) (nb1 nb2 : Option (List Nat)) (b : Bool),
        BoolVector.equals ⟨len, data, nb1⟩ b
          = BoolVector.equals ⟨len, data, nb2⟩ b) := by
  constructor
  · intro v value i hi hnull
    unfold StringVector.equals
    rw [getD_map_range _ _ _ _ hi, if_pos hnull]
  · intro len data nb1 nb2 b
    rfl

/-- C2 witness: a null row of a string vector whose bytes equal the
probe still compares as 0, and a bool vector's mask ignores its bitmap. -/
theorem c2_equals_witness :
    (StringVector.equals ⟨1, [97], [0, 1], some [0]⟩ [97]).getD 0 0 = 0 ∧
    BoolVector.equals ⟨1, [1], some [0]⟩ true
      = BoolVector.equals ⟨1, [1], none⟩ true :=
  ⟨c2_equals_null_semantics.1 ⟨1, [97], [0, 1], some [0]⟩ [97] 0 (by decide)
      (by decide),
    c2_equals_null_semantics.2 1 [1] (some [0]) none true⟩

end Draken

namespace Draken

theorem getD_map_of_lt {α β : Type} (f : α → β) (l : List α) (k : Nat)
    (d1 : β) (d2 : α) (hk : k < l.length) :
    (l.map f).getD k d1 = f (l.getD k d2) := by
  rw [List.getD_eq_getElem?_getD, List.getElem?_map, List.getElem?_eq_getElem hk,
    List.getD_eq_getElem?_getD, List.getElem?_eq_getElem hk]
  rfl

theorem getD_mem_of_lt {α : Type} (l : List α) (k : Nat) (d : α)
    (hk : k < l.length) : l.getD k d ∈ l := by
  rw [List.getD_eq_getElem?_getD, List.getElem?_eq_getElem hk]
  exact List.getElem_mem hk

theorem int64_read_in_range (v : Int64Vector) (mem : Int → Int) (idx : Int)
    (h0 : 0 ≤ idx) (h1 : idx < (v.length : Int)) :
    v.read mem idx = v.data.getD idx.toNat 0 := by
  have hlt : idx.toNat < v.data.length := by
    unfold Int64Vector.length at h1
    omega
  unfold Int64Vector.read
  rw [dif_pos ⟨h0, hlt⟩, List.getD_eq_getElem?_getD,
    List.getElem?_eq_getElem hlt]
  simp

theorem getBit_le_one (bs : List Nat) (i : Nat) : getBit bs i ≤ 1 := by
  unfold getBit byteBit
  rw [Nat.and_one_is_mod]
  omega

theorem getBit_replicate_zero (m i : Nat) :
    getBit (List.replicate m 0) i = 0 := by
  unfold getBit byteBit
  rcases Nat.lt_or_ge (i >>> 3) m with hlt | hge
  · rw [List.getD_eq_getElem?_getD, List.getElem?_replicate]
    simp [hlt]
  · rw [List.getD_eq_getElem?_getD, List.getElem?_replicate]
    have : ¬ (i >>> 3 < m) := by omega
    simp [this]

/-- C4: `StringVector.hash` returns one 64-bit value per row; a null row
hashes to `NULL_HASH` and a non-null row to the FNV-1a accumulation
(seed `0xcbf29ce484222325`, multiplier `0x100000001b3`, modulo 2^64)
over the row's bytes. -/
theorem c4_string_hash_spec (v : StringVector) (i : Nat) (hi : i < v.length) :
    (v.hash).length = v.length ∧
    (v.hash).getD i 0
      = if v.isNullAt i then NULL_HASH else fnv1a (v.rowBytes i) := by
  constructor
  · unfold StringVector.hash
    simp
  · unfold StringVector.hash
    rw [getD_map_range _ _ _ _ hi]

/-- C4 witness: a two-row vector with a null first row hashes to
`NULL_HASH` there and to the FNV-1a value of `[97]` at row 1. -/
theorem c4_string_hash_witness :
    (StringVector.hash ⟨2, [97], [0, 1, 1], some [2]⟩).length = 2 ∧
    (StringVector.hash ⟨2, [97], [0, 1, 1], some [2]⟩).getD 0 0
      = if StringVector.isNullAt ⟨2, [97], [0, 1, 1], some [2]⟩ 0 then NULL_HASH
        else fnv1a (StringVector.rowBytes ⟨2, [97], [0, 1, 1], some [2]⟩ 0) :=
  c4_string_hash_spec ⟨2, [97], [0, 1, 1], some [2]⟩ 0 (by decide)

end Draken

namespace Draken

end Draken

namespace Draken

/-- C7: for a builder created with `with_counts(n, B)`, after any
successful write history, `finish` fails with the incomplete error when
fewer than `n` entries were written, fails with the capacity-mismatch
error when all `n` entries were written but their byte lengths do not
sum to `B`, and otherwise succeeds with a StringVector of length `n`. -/
theorem c7_with_counts_finish (n B : Nat) (ops : List BuildOp)
    (b : SVBuilder) (h : (SVBuilder.withCounts n B).runOps ops = .ok b) :
    (ops.length < n → b.finish = .error .incomplete) ∧
    (ops.length = n → opsBytes ops ≠ B → b.finish = .error .capacityMismatch) ∧
    (ops.length = n → opsBytes ops = B →
      ∃ v b1, b.finish = .ok (v, b1) ∧ v.length = n) := by
  have hinv := runOps_inv ops (buildingInv_withCounts n B) h
  simp only [Nat.zero_add] at hinv
  obtain ⟨hlen, hcap, hstrict, hres, hfin, hnext, hoff, hveclen⟩ := hinv
  have hpstrict : b.patchOffsets.strictCapacity = true := hstrict
  have hpoff : b.patchOffsets.offset = opsBytes ops := hoff
  have hpcap : b.patchOffsets.bytesCap = B := hcap
  refine ⟨?_, ?_, ?_⟩
  · intro hlt
    unfold SVBuilder.finish
    rw [hfin, if_neg (by simp), if_pos (by rw [hnext, hlen]; omega)]
  · intro heq hneq
    unfold SVBuilder.finish
    rw [hfin, if_neg (by simp), if_neg (by rw [hnext, hlen, heq]; omega),
      if_pos ⟨hpstrict, by rw [hpoff, hpcap]; exact hneq⟩]
  · intro heq hbeq
    unfold SVBuilder.finish
    rw [hfin, if_neg (by simp), if_neg (by rw [hnext, hlen, heq]; omega),
      if_neg (by rw [hpoff, hpcap, hbeq]; simp)]
    refine ⟨_, _, rfl, ?_⟩
    show b.patchOffsets.vec.length = n
    unfold SVBuilder.patchOffsets
    exact hveclen

/-- C7 witness: `with_counts(1, 2)` followed by one 2-byte append
finishes successfully with a vector of length 1. -/
theorem c7_with_counts_finish_witness :
    ∃ v b1,
      SVBuilder.finish
          ⟨⟨1, [97, 98], [0, 2], none⟩, 1, 1, 2, 2, false, false, true, false⟩
        = .ok (v, b1) ∧ v.length = 1 := by
  have h : (SVBuilder.withCounts 1 2).runOps [.appendVal [97, 98]]
      = .ok ⟨⟨1, [97, 98], [0, 2], none⟩, 1, 1, 2, 2, false, false, true,
             false⟩ := by
    decide
  exact (c7_with_counts_finish 1 2 [.appendVal [97, 98]] _ h).2.2 rfl rfl

/-- C9: `Morsel.select` fails with ColumnNotFound when any requested
name has no matching column; otherwise it returns a morsel with the
source's row count whose k-th column is the very handle stored at the
first index whose name matches request k, with that column's name and
type code, in request order. -/
theorem c9_select_spec {α : Type} [Inhabited α] (m : Morsel α)
    (cols : List (List Nat)) :
    (¬ (∀ c ∈ cols, c ∈ m.columnNames) →
      m.select cols = .error .columnNotFound) ∧
    ((∀ c ∈ cols, c ∈ m.columnNames) →
      ∃ r, m.select cols = .ok r ∧
        r.numRows = m.numRows ∧
        r.columns.length = cols.length ∧
        ∀ k, k < cols.length →
          ∃ i, firstMatch m.columnNames (cols.getD k []) = some i ∧
            i < m.columnNames.length ∧
            m.columnNames.getD i [] = cols.getD k [] ∧
            (∀ j, j < i → m.columnNames.getD j [] ≠ cols.getD k []) ∧
            r.columns.getD k default = m.columns.getD i default ∧
            r.columnNames.getD k [] = m.columnNames.getD i [] ∧
            r.columnTypes.getD k 0 = m.columnTypes.getD i 0) := by
  constructor
  · intro hmiss
    unfold Morsel.select
    rw [resolveNames_err _ _ hmiss]
  · intro hall
    obtain ⟨idxs, hres, hlen, hspec⟩ := resolveNames_ok m.columnNames cols hall
    unfold Morsel.select
    rw [hres]
    refine ⟨_, rfl, rfl, by simpa using hlen, ?_⟩
    intro k hk
    have hkidx : k < idxs.length := by omega
    have hfm := hspec k hk
    obtain ⟨h1, h2, h3⟩ := firstMatch_spec _ _ _ hfm
    exact ⟨idxs.getD k 0, hfm, h1, h2, h3,
      getD_map_of_lt _ idxs k default 0 hkidx,
      getD_map_of_lt _ idxs k [] 0 hkidx,
      getD_map_of_lt _ idxs k 0 0 hkidx⟩

/-- C9 witness: a missing name fails with ColumnNotFound, and selecting
a present name of a duplicated-name morsel succeeds. -/
theorem c9_select_witness :
    Morsel.select (α := Nat) ⟨[10, 20, 30], [[120], [121], [120]], [3, 9, 3], 5⟩
        [[99]] = .error .columnNotFound ∧
    (Morsel.select (α := Nat) ⟨[10, 20, 30], [[120], [121], [120]], [3, 9, 3], 5⟩
        [[120]]).isOk = true := by
  constructor
  · exact (c9_select_spec ⟨[10, 20, 30], [[120], [121], [120]], [3, 9, 3], 5⟩
      [[99]]).1 (by decide)
  · obtain ⟨r, hr, _⟩ := (c9_select_spec
      ⟨[10, 20, 30], [[120], [121], [120]], [3, 9, 3], 5⟩ [[120]]).2 (by decide)
    rw [hr]
    rfl

end Draken
